/- Verification of the race lifecycle and reconciliation engine of the
   pacey32-horseracing-bq-data repository.

   The Python sources are shallowly embedded: strings are modelled as
   List Char, the Python string operations (substring containment via
   the in operator, strip, split, replace) are modelled by the py*
   functions below, DataFrames of scraped sub-entity rows are modelled
   as lists, and the BigQuery append-only store interactions are
   modelled by the record-building functions that the scripts pass to
   load_table_from_dataframe. -/
import Mathlib

/- ===== Python string primitives over List Char ===== -/

/-- Python substring test, pat in s. -/
def listContains (pat : List Char) : List Char → Bool
  | [] => pat.isEmpty
  | s@(_ :: t) => pat.isPrefixOf s || listContains pat t

/-- Python s.strip(c): remove leading and trailing occurrences of c. -/
def pyStrip (c : Char) (s : List Char) : List Char :=
  ((s.dropWhile (· == c)).reverse.dropWhile (· == c)).reverse

/-- Python s.split(c) for a single-character separator. -/
def pySplit (sep : Char) : List Char → List (List Char)
  | [] => [[]]
  | c :: t =>
    match pySplit sep t with
    | [] => [[]]
    | h :: r => if c = sep then [] :: h :: r else (c :: h) :: r

/-- Fuel-driven worker for Python s.replace(pat, rep): scan left to
right, replacing every non-overlapping occurrence. The fuel is the
length of the scanned list, so it never runs out. -/
def pyReplaceAux (pat rep : List Char) : Nat → List Char → List Char
  | _, [] => []
  | 0, s => s
  | fuel + 1, c :: t =>
    if !pat.isEmpty && pat.isPrefixOf (c :: t) then
      rep ++ pyReplaceAux pat rep fuel (List.drop (pat.length - 1) t)
    else
      c :: pyReplaceAux pat rep fuel t

/-- Python s.replace(pat, rep). -/
def pyReplace (pat rep s : List Char) : List Char :=
  pyReplaceAux pat rep s.length s

/-- A segment of a URL path: no slash occurs in it. -/
def slashFree (x : List Char) : Prop := '/' ∉ x

/-- Render a nonempty list of path segments as a relative URL with a
leading slash and no trailing slash. -/
def mkLink : List (List Char) → List Char
  | [] => []
  | x :: rest => '/' :: (x ++ mkLink rest)

/- ===== Identity Resolver =====
   From src/1. History/1. SportingLife_RaceSpineCreation.py
   get_race_urls lines 67-89, identical to
   src/2. Daily/1a. RaceSpineCreation_Results.py lines 72-90. -/

def racingSeg : List Char := "racing".toList
def racecardsSeg : List Char := "racecards".toList
def racecardSeg : List Char := "racecard".toList
def resultsSeg : List Char := "results".toList

def racecardsMarker : List Char := "/racecards/".toList
def racecardMarker : List Char := "/racecard/".toList
def resultsMarker : List Char := "/results/".toList
def domainChars : List Char := "https://www.sportinglife.com".toList
def racingRacecardsStub : List Char := "/racing/racecards/".toList
def racecardStub : List Char := "/racecard/".toList

structure URLPair where
  prerace : List Char
  postrace : List Char
deriving DecidableEq

/-- Repair of a shortened pre-collection relative link: the source
rebuilds /racing/racecards/{parts[2]}/{parts[3]}/racecard/{parts[4]}/{parts[5]}
from parts = relative_url.strip(slash).split(slash), but only when at
least six parts are present; otherwise the link is left unchanged. -/
def repairShort (rel : List Char) : List Char :=
  let parts := pySplit '/' (pyStrip '/' rel)
  if 6 ≤ parts.length then
    racingRacecardsStub ++ parts.getD 2 [] ++ ('/' :: parts.getD 3 []) ++
      racecardStub ++ parts.getD 4 [] ++ ('/' :: parts.getD 5 [])
  else rel

/-- The Identity Resolver branch of get_race_urls: classify a
discovered relative link by its marker, repair a shortened
pre-collection form, and derive the (prerace_URL, postrace_URL) pair.
A link with neither marker is dropped (none). -/
def resolveLink (link : List Char) : Option URLPair :=
  if listContains racecardsMarker link then
    let rel := if listContains racecardMarker link then link else repairShort link
    some ⟨domainChars ++ rel, domainChars ++ pyReplace racecardsMarker resultsMarker rel⟩
  else if listContains resultsMarker link then
    let rel0 := pyReplace resultsMarker racecardsMarker link
    let rel := if listContains racecardMarker rel0 then rel0 else repairShort rel0
    some ⟨domainChars ++ rel, domainChars ++ link⟩
  else none

/-- Hypotheses on a date, location or event-id segment of a discovered
link: nonempty, slash-free, and not itself one of the path markers. -/
def SegOkMid (x : List Char) : Prop :=
  x ≠ [] ∧ slashFree x ∧ x ≠ racecardSeg ∧ x ≠ racecardsSeg ∧ x ≠ resultsSeg

/-- Hypotheses on the final (race-name) segment of a discovered link. -/
def SegOkLast (x : List Char) : Prop := x ≠ [] ∧ slashFree x

instance (x : List Char) : Decidable (slashFree x) := by
  unfold slashFree
  infer_instance

instance (x : List Char) : Decidable (SegOkMid x) := by
  unfold SegOkMid
  infer_instance

instance (x : List Char) : Decidable (SegOkLast x) := by
  unfold SegOkLast
  infer_instance

/-- Full-form pre-collection link /racing/racecards/D/L/racecard/I/N. -/
def preFullLink (D L I N : List Char) : List Char :=
  mkLink [racingSeg, racecardsSeg, D, L, racecardSeg, I, N]

/-- Shortened pre-collection link /racing/racecards/D/L/I/N. -/
def preShortLink (D L I N : List Char) : List Char :=
  mkLink [racingSeg, racecardsSeg, D, L, I, N]

/-- Full-form post-collection link /racing/results/D/L/racecard/I/N. -/
def postFullLink (D L I N : List Char) : List Char :=
  mkLink [racingSeg, resultsSeg, D, L, racecardSeg, I, N]

/-- Shortened post-collection link /racing/results/D/L/I/N. -/
def postShortLink (D L I N : List Char) : List Char :=
  mkLink [racingSeg, resultsSeg, D, L, I, N]

/-- The canonical Event Identity derived for the event (D, L, I, N). -/
def canonicalPrerace (D L I N : List Char) : List Char :=
  domainChars ++ preFullLink D L I N

/- ===== Reconciliation Store current-state view =====
   From src/Apps/RaceViewer/data/bigquery_functions.py get_single_race
   lines 67-87: ROW_NUMBER() OVER (PARTITION BY prerace_URL ORDER BY
   load_timestamp DESC) and the rn = 1 filter. -/

structure SpineRow where
  prerace_URL : String
  Status : String
  ts : Nat
deriving DecidableEq

/-- Pick the row with the maximal load timestamp; ties are broken
deterministically (the SQL leaves the order of equal timestamps
unspecified). -/
def pickLatest : List SpineRow → Option SpineRow
  | [] => none
  | r :: rest =>
    match pickLatest rest with
    | none => some r
    | some b => if r.ts < b.ts then some b else some r

/-- The current-state view for one identity: among the rows whose
prerace_URL equals the identity, the one with maximal load_timestamp. -/
def currentState (rows : List SpineRow) (url : String) : Option SpineRow :=
  pickLatest (rows.filter (fun r => r.prerace_URL == url))

/- ===== Collection Orchestrator: status row appends (C2) =====
   Daily: src/2. Daily/2. ScrapeFromSpine.py lines 291-296.
   History: src/1. History/2. ScrapeFromSpine.py lines 418-425. -/

structure SpineInputRow where
  Date : String
  Location : String
  Time : String
  prerace_URL : String
  postrace_URL : String
deriving DecidableEq

/-- The status row the Daily orchestrator appends: the source dict has
only the keys Date, Location, Time and Status. -/
structure DailyStatusUpdate where
  Date : String
  Location : String
  Time : String
  Status : String
deriving DecidableEq

def mkDailyStatusUpdate (row : SpineInputRow) (status : String) : DailyStatusUpdate :=
  { Date := row.Date, Location := row.Location, Time := row.Time, Status := status }

/-- The status row the History orchestrator intends to append. -/
structure HistoryStatusUpdate where
  Date : String
  Location : String
  Time : String
  prerace_URL : String
  postrace_URL : String
  Status : String
deriving DecidableEq

/-- Building the History status row. Line 422 of
src/1. History/2. ScrapeFromSpine.py reads the variable prerace_URL,
which is never bound in the function (the loop binds prerace_url, in
lower case), so evaluating the dict literal raises NameError before
any row is appended; the raise is modelled as an error value. -/
def mkHistoryStatusUpdate (_row : SpineInputRow) (_status : String) :
    Except String HistoryStatusUpdate :=
  Except.error "NameError: name prerace_URL is not defined"

def c2RowA : SpineInputRow :=
  { Date := "2025-11-01", Location := "Ascot", Time := "14:30",
    prerace_URL := "https://www.sportinglife.com/racing/racecards/2025-11-01/Ascot/racecard/123/Some-Race",
    postrace_URL := "https://www.sportinglife.com/racing/results/2025-11-01/Ascot/racecard/123/Some-Race" }

def c2RowB : SpineInputRow :=
  { Date := "2025-11-01", Location := "Ascot", Time := "14:30",
    prerace_URL := "https://www.sportinglife.com/racing/racecards/2025-11-01/Ascot/racecard/456/Other-Race",
    postrace_URL := "https://www.sportinglife.com/racing/results/2025-11-01/Ascot/racecard/456/Other-Race" }

/- ===== Collection Orchestrator: per-event aggregation (C5) =====
   From src/2. Daily/2. ScrapeFromSpine.py lines 276-289 and
   src/1. History/2. ScrapeFromSpine.py lines 403-416. -/

/-- Python truthiness of url.strip(): true when some non-whitespace
character remains. -/
def pyTruthyStrip (s : String) : Bool :=
  !(((s.toList.dropWhile Char.isWhitespace).reverse.dropWhile Char.isWhitespace).reverse.isEmpty)

/-- pd.notna(url) and url.strip(): the guard under which a pass is
attempted at all. -/
def urlPresent : Option String → Bool
  | none => false
  | some s => pyTruthyStrip s

/-- One loop iteration of main(): run the applicable passes and derive
the status that is appended for this event. preRows and postRows are
the sub-entity rows the respective scrape would return. -/
def aggregateOutcomeStatus (preURL postURL : Option String)
    (preRows postRows : List Nat) : String :=
  let preDf := if urlPresent preURL then preRows else []
  let postDf := if urlPresent postURL then postRows else []
  if !preDf.isEmpty && !postDf.isEmpty then "Complete"
  else if !preDf.isEmpty || !postDf.isEmpty then "In Progress"
  else "Pending"

/- ===== Collection Orchestrator: retry policy (C7) =====
   scrape_prerace in src/1. History/2. ScrapeFromSpine.py lines 92-187,
   scrape_results in the same file lines 203-339, and scrape_prerace in
   src/2. Daily/2. ScrapeFromSpine.py lines 92-187 all run
   for attempt in range(max_retries) with except TimeoutException:
   time.sleep(3). scrape_results in src/2. Daily/2. ScrapeFromSpine.py
   lines 192-220 performs a single driver.get with no retry loop. -/

/-- Outcome of one fetch attempt: a transient timeout, or a fetched
page yielding a (possibly empty) list of sub-entity rows; an empty
list models the page rendering without the expected structural
markers. -/
inductive AttemptOutcome
  | timeout
  | page (rows : List Nat)
deriving DecidableEq

/-- The retry loop shared by the three retrying collectors: attempt i,
break on a fetched page, sleep a fixed 3 seconds and retry on a
timeout, give up after the remaining attempt budget is exhausted.
Returns (rows, attempts made, backoff sleeps taken). -/
def retryLoop (outcome : Nat → AttemptOutcome) : Nat → Nat → List Nat × Nat × Nat
  | _, 0 => ([], 0, 0)
  | i, remaining + 1 =>
    match outcome i with
    | .page rows => (rows, 1, 0)
    | .timeout =>
      let r := retryLoop outcome (i + 1) remaining
      (r.1, r.2.1 + 1, r.2.2 + 1)

/-- A retrying collector run with its attempt budget (3 at every call
site). -/
def scrapeWithRetries (outcome : Nat → AttemptOutcome) (maxRetries : Nat) :
    List Nat × Nat × Nat :=
  retryLoop outcome 0 maxRetries

/-- The Daily after-pass collector scrape_results: one driver.get with
no surrounding retry loop; a timeout propagates out as an exception,
and a fetched page yields its rows (none when the header elements are
missing). Returns the outcome and the number of attempts made. -/
def scrapeResultsDailyRun (outcome : Nat → AttemptOutcome) :
    Except String (List Nat) × Nat :=
  match outcome 0 with
  | .timeout => (Except.error "TimeoutException", 1)
  | .page rows => (Except.ok rows, 1)

def allTimeouts : Nat → AttemptOutcome := fun _ => AttemptOutcome.timeout

def timeoutThenPage : Nat → AttemptOutcome :=
  fun n => if n = 0 then AttemptOutcome.timeout else AttemptOutcome.page [7]

/- ===== Remediation job (C6) =====
   From src/1. History/3. Run PreRace on Abandoned.py:
   load_abandoned_races lines 46-54 (selection query) and main lines
   271-288 (new status construction). -/

def abandonedLC : List Char := "abandoned".toList
def preRaceCompletedChars : List Char := "PreRace Completed".toList
def preraceCompletedAltChars : List Char := "Prerace Completed".toList
def preRaceCompletedDash : List Char := "PreRace Completed - ".toList

/-- SQL LOWER. -/
def lowerChars (s : List Char) : List Char := s.map Char.toLower

/-- The selection predicate of load_abandoned_races: LOWER(Status)
LIKE percent-abandoned-percent AND NOT STARTS_WITH(Status, PreRace
Completed) AND NOT STARTS_WITH(Status, Prerace Completed). -/
def remediationSelected (status : List Char) : Bool :=
  listContains abandonedLC (lowerChars status) &&
    !(preRaceCompletedChars.isPrefixOf status) &&
    !(preraceCompletedAltChars.isPrefixOf status)

/-- The selection predicate as the claim words it: Status contains
abandoned case-insensitively and does not start with PreRace
Completed. Stated for refinement comparison with remediationSelected. -/
def claimRemediationPred (status : List Char) : Bool :=
  listContains abandonedLC (lowerChars status) &&
    !(preRaceCompletedChars.isPrefixOf status)

/-- The status the remediation job appends for a selected row: the
source sets new_status to the literal prefix followed by the previous
status, unconditionally after the before-pass scrape. -/
def remediationNewStatus (prev : List Char) : List Char :=
  preRaceCompletedDash ++ prev

/-- The remediation per-row update status also receives the scraped
before-pass rows; the source ignores them when building new_status. -/
def remediationUpdateStatus (prev : List Char) (_preRows : List Nat) : List Char :=
  remediationNewStatus prev

def altPrefixStatus : List Char := "Prerace Completed - Abandoned: snow".toList

def abandonedHighWinds : List Char := "Abandoned: high winds".toList

/- ===== Discovery status assignment (C8) =====
   History: src/1. History/1. SportingLife_RaceSpineCreation.py
   lines 95-117. Daily results spine:
   src/2. Daily/1a. RaceSpineCreation_Results.py lines 92-97. Daily
   races spine: src/2. Daily/1b. RaceSpineCreation_Races.py
   lines 88-92. -/

def abandonedChars : List Char := "Abandoned".toList

/-- Status assignment of the History discovery pass: Abandoned (or the
extracted reason text when present and nonempty) for a race with an
abandoned marker; otherwise Complete when the derived prerace URL is
among the caller-supplied existing URLs, else Pending. -/
def discoveryStatusHistory (abandoned : Bool) (reasonText : Option String)
    (preraceURL : String) (existingURLs : List String) : String :=
  if abandoned then
    match reasonText with
    | some r => if r = "" then "Abandoned" else r
    | none => "Abandoned"
  else if preraceURL ∈ existingURLs then "Complete"
  else "Pending"

/-- Status assignment of the Daily results-spine discovery pass. -/
def discoveryStatusDailyResults (abandoned : Bool) : String :=
  if abandoned then "Abandoned" else "Pending"

/-- Status assignment of the Daily races-spine discovery pass: the
meeting-level abandoned reason text when present and nonempty, else
Pending. -/
def discoveryStatusDailyRaces (meetingReason : Option String) : String :=
  match meetingReason with
  | some r => if r = "" then "Pending" else r
  | none => "Pending"

def c8URL : String :=
  "https://www.sportinglife.com/racing/racecards/2025-11-01/Ascot/racecard/123/Some-Race"

/- ===== Orchestrator session lifecycle (C9) =====
   From src/2. Daily/2. ScrapeFromSpine.py main lines 255-299 and
   src/1. History/2. ScrapeFromSpine.py main lines 382-428: the early
   return on an empty batch precedes setup_driver(); driver.quit() is
   the statement after the loop, not inside a try/finally, and the
   BigQuery uploads follow it. -/

/-- Outcome of processing one event of the batch: normal completion,
or an exception propagating out of the loop body (for example the
uncaught TimeoutException of the Daily scrape_results). -/
inductive StepResult
  | ok
  | raise (msg : String)
deriving DecidableEq

def firstRaise : List StepResult → Option String
  | [] => none
  | StepResult.ok :: t => firstRaise t
  | StepResult.raise m :: _ => some m

structure RunTrace where
  opened : Bool
  closed : Bool
  err : Option String
deriving DecidableEq

/-- The control flow of main(): early return on an empty batch before
the driver is created; otherwise the driver is opened, the batch loop
runs, and driver.quit() executes only if no iteration raised; the
uploads (which may themselves fail) run after the quit. -/
def mainRun (batch : List StepResult) (uploadErr : Option String) : RunTrace :=
  if batch.isEmpty then { opened := false, closed := false, err := none }
  else
    match firstRaise batch with
    | some m => { opened := true, closed := false, err := some m }
    | none => { opened := true, closed := true, err := uploadErr }

def c9BadBatch : List StepResult := [StepResult.raise "TimeoutException"]

/- ===== Each-way returns calculator (C10) =====
   From src/Apps/Scenario/scenario_engine.py: _get_ew_terms lines
   14-42 and calculate_returns_split lines 45-108. Python floats are
   modelled as rationals; the identities proved are between the very
   expressions the source builds the returned dict from. -/

/-- _get_ew_terms: (place terms fraction, places paid, each-way
possible). -/
def getEwTerms : Option Int → Bool → ℚ × Int × Bool
  | none, _ => (0, 0, false)
  | some r, h =>
    if r ≤ 4 then (0, 0, false)
    else if 5 ≤ r ∧ r ≤ 7 then (1/4, 2, true)
    else if 8 ≤ r ∧ r ≤ 11 then (1/5, 3, true)
    else if 12 ≤ r ∧ r ≤ 15 then (if h then 1/4 else 1/5, 3, true)
    else if 16 ≤ r ∧ h then (1/4, 4, true)
    else (1/5, 3, true)

structure BetReturns where
  Staked : ℚ
  Win_Returns : ℚ
  Place_Returns : ℚ
  Total_Returns : ℚ
  Profit : ℚ
deriving DecidableEq

/-- calculate_returns_split. The three row fields are the already
parsed values of _safe_int(Result_Position), _safe_int(Post_RaceRunners)
and float(Odds_dec); none models a parse failure, in which case the
source returns a dict of NaNs. -/
def calculate_returns_split (result runners : Option Int) (isHandicap : Bool)
    (winEw : Option ℚ) (stake : ℚ) (eachWay : Bool) : Option BetReturns :=
  match result, runners, winEw with
  | some res, some run, some ew =>
    if eachWay = false then
      let staked : ℚ := stake
      let winReturns : ℚ := if res = 1 then stake * ew + stake else 0
      let total : ℚ := winReturns
      some { Staked := staked, Win_Returns := winReturns, Place_Returns := 0,
             Total_Returns := total, Profit := total - staked }
    else
      let terms := getEwTerms (some run) isHandicap
      let placeTerms : ℚ := terms.1
      let placesPaid : Int := terms.2.1
      let ewPossible : Bool := terms.2.2
      let stakeWin : ℚ := stake
      let stakePlace : ℚ := if ewPossible then stake else 0
      let staked : ℚ := stakeWin + stakePlace
      let winReturns : ℚ := if res = 1 then stakeWin * ew + stakeWin else 0
      let placed : Bool := decide (res ≤ placesPaid) && decide (0 < placesPaid)
      let placeOdds : ℚ := ew * placeTerms
      let placeReturns : ℚ := if placed then stakePlace * placeOdds + stakePlace else 0
      let total : ℚ := winReturns + placeReturns
      some { Staked := staked, Win_Returns := winReturns, Place_Returns := placeReturns,
             Total_Returns := total, Profit := total - staked }
  | _, _, _ => none

/- ===== Concrete inputs used by witnesses and counterexamples ===== -/

def c1Rows : List SpineRow :=
  [{ prerace_URL := "X", Status := "Pending", ts := 1 },
   { prerace_URL := "X", Status := "Complete", ts := 3 },
   { prerace_URL := "X", Status := "In Progress", ts := 2 }]

def c1Winner : SpineRow := { prerace_URL := "X", Status := "Complete", ts := 3 }

def c4ShortNoRoot : List Char := "/racecards/2025-11-01/Ascot/123/Some-Race".toList
def c4ShortWithRoot : List Char := "/racing/racecards/2025-11-01/Ascot/123/Some-Race".toList
def c4Repaired : List Char := "/racing/racecards/2025-11-01/Ascot/racecard/123/Some-Race".toList
def c4ClaimTarget : List Char := "/racecards/2025-11-01/Ascot/racecard/123/Some-Race".toList
def c4PostTarget : List Char := "/racing/results/2025-11-01/Ascot/racecard/123/Some-Race".toList

def segD : List Char := "2025-11-01".toList
def segL : List Char := "Ascot".toList
def segI : List Char := "123".toList
def segN : List Char := "Some-Race".toList

def c9OkBatch : List StepResult := [StepResult.ok]

def c10Result : BetReturns :=
  { Staked := 2, Win_Returns := 11/2, Place_Returns := 19/10,
    Total_Returns := 37/5, Profit := 27/5 }

/- ===================================================================
   Theorems
   =================================================================== -/

theorem pickLatest_eq_none (l : List SpineRow) : pickLatest l = none ↔ l = [] := by
  cases l with
  | nil => simp [pickLatest]
  | cons a t =>
    simp only [pickLatest]
    cases h : pickLatest t with
    | none => simp
    | some b => cases Nat.lt_or_ge a.ts b.ts with
      | inl hlt => simp [hlt]
      | inr hge => simp [Nat.not_lt_of_ge hge]

theorem pickLatest_mem (l : List SpineRow) (b : SpineRow) (h : pickLatest l = some b) :
    b ∈ l := by
  induction l with
  | nil => simp [pickLatest] at h
  | cons a t ih =>
    simp only [pickLatest] at h
    cases ht : pickLatest t with
    | none => rw [ht] at h; simp at h; simp [h]
    | some c =>
      rw [ht] at h
      by_cases hlt : a.ts < c.ts
      · simp [hlt] at h; subst h; exact List.mem_cons_of_mem a (ih ht)
      · simp [hlt] at h; simp [h]

theorem pickLatest_unique (l : List SpineRow) (r : SpineRow) (hmem : r ∈ l)
    (hmax : ∀ y ∈ l, y ≠ r → y.ts < r.ts) : pickLatest l = some r := by
  induction l with
  | nil => simp at hmem
  | cons a t ih =>
    rcases List.mem_cons.mp hmem with rfl | hmem2
    · simp only [pickLatest]
      cases ht : pickLatest t with
      | none => rfl
      | some b =>
        have hb : b ∈ t := pickLatest_mem t b ht
        by_cases hbr : b = r
        · subst hbr; simp [Nat.lt_irrefl]
        · have : b.ts < r.ts := hmax b (List.mem_cons_of_mem r hb) hbr
          simp [Nat.not_lt_of_gt this]
    · have hrec : pickLatest t = some r :=
        ih hmem2 (fun y hy hne => hmax y (List.mem_cons_of_mem a hy) hne)
      simp only [pickLatest, hrec]
      by_cases har : a = r
      · subst har; simp [Nat.lt_irrefl]
      · have : a.ts < r.ts := hmax a (List.mem_cons_self a t) har
        simp [this]

/-- C1: for every finite list of spine rows and identity url, if x is a
row for url whose load timestamp strictly exceeds that of every other
row for url, the current-state view selects x, and it does so for
every reordering of the rows (insertion-order independence). The
witness instantiates the spec scenario: Pending at t1, Complete at t3
and In Progress at t2 with t1 < t2 < t3, listed out of timestamp
order, reconcile to the Complete record. -/
theorem C1_currentState_latest (rows : List SpineRow) (x : SpineRow) (url : String)
    (hmem : x ∈ rows) (hurl : x.prerace_URL = url)
    (hmax : ∀ y ∈ rows, y.prerace_URL = url → y ≠ x → y.ts < x.ts) :
    currentState rows url = some x ∧
      ∀ rows2, List.Perm rows rows2 → currentState rows2 url = some x := by
  have key : ∀ rs : List SpineRow, x ∈ rs →
      (∀ y ∈ rs, y.prerace_URL = url → y ≠ x → y.ts < x.ts) →
      currentState rs url = some x := by
    intro rs hm hmx
    unfold currentState
    apply pickLatest_unique
    · exact List.mem_filter.mpr ⟨hm, by simp [hurl]⟩
    · intro y hy hne
      have hy2 := List.mem_filter.mp hy
      exact hmx y hy2.1 (by simpa using hy2.2) hne
  refine ⟨key rows hmem hmax, fun rows2 hperm => ?_⟩
  exact key rows2 (hperm.mem_iff.mp hmem)
    (fun y hy hu hne => hmax y (hperm.mem_iff.mpr hy) hu hne)

theorem C1_witness :
    (c1Winner ∈ c1Rows ∧ c1Winner.prerace_URL = "X" ∧
      (∀ y ∈ c1Rows, y.prerace_URL = "X" → y ≠ c1Winner → y.ts < c1Winner.ts)) ∧
    currentState c1Rows "X" = some c1Winner :=
  ⟨⟨by decide, by decide, by decide⟩,
   (C1_currentState_latest c1Rows c1Winner "X" (by decide) (by decide) (by decide)).1⟩

/-- C2: the Daily orchestrator appends a status row holding only Date,
Location, Time and Status, so two pending rows that differ only in
their URL identity fields produce identical appended rows (the
original prerace_URL and postrace_URL are not carried); and the
History orchestrator never appends at all because building its status
row raises NameError on the unbound name prerace_URL. -/
theorem C2_status_row_loses_identity :
    mkDailyStatusUpdate c2RowA "Complete" = mkDailyStatusUpdate c2RowB "Complete" ∧
    c2RowA.prerace_URL ≠ c2RowB.prerace_URL ∧
    mkHistoryStatusUpdate c2RowA "Complete" =
      Except.error "NameError: name prerace_URL is not defined" :=
  ⟨by decide, by decide, rfl⟩

/-- C4 counterexample: on the exact shortened link of the claim, which
lacks the leading racing root segment, strip-and-split yields only
five parts, so the len(parts) at least 6 guard fails and the resolver
performs no rewrite at all: the derived prerace URL embeds the
unrepaired five-segment link, not the six-segment form the claim
states. -/
theorem C4_counterexample :
    repairShort c4ShortNoRoot = c4ShortNoRoot ∧
    (resolveLink c4ShortNoRoot).map URLPair.prerace =
      some (domainChars ++ c4ShortNoRoot) ∧
    domainChars ++ c4ShortNoRoot ≠ domainChars ++ c4ClaimTarget := by decide

/-- C4 (amended): with the racing root segment included, the shortened
pre-collection link repairs to the six-segment racecard form before
the URL pair is constructed, while the rootless five-segment variant
is left unrepaired. -/
theorem C4_repair_with_root :
    repairShort c4ShortWithRoot = c4Repaired ∧
    resolveLink c4ShortWithRoot =
      some ⟨domainChars ++ c4Repaired, domainChars ++ c4PostTarget⟩ ∧
    repairShort c4ShortNoRoot = c4ShortNoRoot := by decide

/-- C5: when both passes are attempted (both URLs present and
non-blank), the appended status is Complete exactly when both passes
yield at least one sub-entity row, and it is In Progress whenever
exactly one of them does. -/
theorem C5_partial_pass_aggregation (preURL postURL : Option String)
    (preRows postRows : List Nat)
    (hpre : urlPresent preURL = true) (hpost : urlPresent postURL = true) :
    (aggregateOutcomeStatus preURL postURL preRows postRows = "Complete" ↔
      preRows ≠ [] ∧ postRows ≠ []) ∧
    ((preRows ≠ [] ∧ postRows = []) ∨ (preRows = [] ∧ postRows ≠ []) →
      aggregateOutcomeStatus preURL postURL preRows postRows = "In Progress") := by
  unfold aggregateOutcomeStatus
  rw [hpre, hpost]
  cases preRows <;> cases postRows <;> simp

theorem C5_witness :
    (urlPresent (some "https://example") = true ∧
      urlPresent (some "https://example2") = true) ∧
    aggregateOutcomeStatus (some "https://example") (some "https://example2")
      [1] [] = "In Progress" :=
  ⟨⟨by decide, by decide⟩,
   (C5_partial_pass_aggregation (some "https://example") (some "https://example2")
     [1] [] (by decide) (by decide)).2 (Or.inl ⟨by decide, rfl⟩)⟩

/-- C6 counterexample: a current-state status that starts with the
alternative capitalisation Prerace Completed and contains abandoned
satisfies the selection predicate exactly as the claim words it, yet
the selection query of load_abandoned_races excludes it through its
additional NOT STARTS_WITH(Status, Prerace Completed) clause. -/
theorem C6_counterexample :
    claimRemediationPred altPrefixStatus = true ∧
    remediationSelected altPrefixStatus = false := by decide

/-- C6 (amended): for every status the remediation job selects, the
appended status is the PreRace Completed prefix followed by the
original abandonment text, independent of the scraped before-pass
rows, and the resulting status no longer satisfies the remediation
selection predicate. -/
theorem C6_remediation_terminal (s : List Char)
    (_hsel : remediationSelected s = true) :
    remediationNewStatus s = preRaceCompletedDash ++ s ∧
    preRaceCompletedChars.isPrefixOf (remediationNewStatus s) = true ∧
    remediationSelected (remediationNewStatus s) = false ∧
    (∀ preRows : List Nat, remediationUpdateStatus s preRows = remediationNewStatus s) := by
  have hp0 : preRaceCompletedChars.isPrefixOf preRaceCompletedDash = true := by decide
  have hpref : preRaceCompletedChars.isPrefixOf (remediationNewStatus s) = true := by
    have h1 : preRaceCompletedChars <+: preRaceCompletedDash :=
      List.isPrefixOf_iff_prefix.mp hp0
    have h2 : preRaceCompletedChars <+: (preRaceCompletedDash ++ s) :=
      h1.trans (List.prefix_append _ _)
    simpa [remediationNewStatus] using List.isPrefixOf_iff_prefix.mpr h2
  refine ⟨rfl, hpref, ?_, fun _ => rfl⟩
  unfold remediationSelected
  rw [hpref]
  simp

theorem C6_witness :
    remediationSelected abandonedHighWinds = true ∧
    (remediationNewStatus abandonedHighWinds =
        preRaceCompletedDash ++ abandonedHighWinds ∧
      preRaceCompletedChars.isPrefixOf (remediationNewStatus abandonedHighWinds) = true ∧
      remediationSelected (remediationNewStatus abandonedHighWinds) = false ∧
      (∀ preRows : List Nat,
        remediationUpdateStatus abandonedHighWinds preRows =
          remediationNewStatus abandonedHighWinds)) :=
  ⟨by decide, C6_remediation_terminal abandonedHighWinds (by decide)⟩

/-- C7 counterexample: under persistent transient fetch errors the
Daily after-pass collector makes exactly one attempt and propagates
the TimeoutException, instead of the three attempts the claim states
for every pass (which the retrying collectors do make). -/
theorem C7_counterexample :
    scrapeResultsDailyRun allTimeouts = (Except.error "TimeoutException", 1) ∧
    (scrapeResultsDailyRun allTimeouts).2 ≠ 3 ∧
    (scrapeWithRetries allTimeouts 3).2.1 = 3 := by
  refine ⟨rfl, ?_, rfl⟩
  decide

/-- C7 (amended): the before-pass collectors and the History
after-pass collector retry a transient fetch error up to 3 attempts
with one fixed backoff sleep per timeout, and a fetched page (with or
without sub-entity rows, hence also on structural-marker absence) is
never retried; the Daily after-pass collector instead makes a single
attempt and propagates a transient fetch error. -/
theorem C7_retry_policy (outcome : Nat → AttemptOutcome) (rows : List Nat) :
    (outcome 0 = AttemptOutcome.page rows →
      scrapeWithRetries outcome 3 = (rows, 1, 0)) ∧
    (outcome 0 = AttemptOutcome.timeout → outcome 1 = AttemptOutcome.page rows →
      scrapeWithRetries outcome 3 = (rows, 2, 1)) ∧
    (outcome 0 = AttemptOutcome.timeout → outcome 1 = AttemptOutcome.timeout →
      outcome 2 = AttemptOutcome.timeout →
      scrapeWithRetries outcome 3 = ([], 3, 3)) ∧
    (outcome 0 = AttemptOutcome.timeout →
      scrapeResultsDailyRun outcome = (Except.error "TimeoutException", 1)) := by
  refine ⟨fun h0 => ?_, fun h0 h1 => ?_, fun h0 h1 h2 => ?_, fun h0 => ?_⟩
  · simp [scrapeWithRetries, retryLoop, h0]
  · simp [scrapeWithRetries, retryLoop, h0, h1]
  · simp [scrapeWithRetries, retryLoop, h0, h1, h2]
  · simp [scrapeResultsDailyRun, h0]

theorem C7_witness :
    (timeoutThenPage 0 = AttemptOutcome.timeout ∧
      timeoutThenPage 1 = AttemptOutcome.page [7]) ∧
    scrapeWithRetries timeoutThenPage 3 = ([7], 2, 1) :=
  ⟨⟨rfl, rfl⟩, (C7_retry_policy timeoutThenPage [7]).2.1 rfl rfl⟩

/-- C8 counterexample: the History discovery pass assigns the status
Complete, which is neither Pending nor an Abandoned value, whenever
the derived prerace URL is among the existing URLs supplied to
get_race_urls and the race is not marked abandoned. -/
theorem C8_counterexample :
    discoveryStatusHistory false none c8URL [c8URL] = "Complete" ∧
    ("Complete" : String) ≠ "Pending" ∧
    abandonedChars.isPrefixOf "Complete".toList = false := by decide

/-- C8 (amended): when the discovery passes run with no existing URLs
supplied (as every call site in the repository does) and every
extracted abandonment reason text starts with Abandoned, each
discovery variant assigns only Pending or an Abandoned-prefixed
status. -/
theorem C8_discovery_status (abandoned : Bool) (reasonText meetingReason : Option String)
    (preraceURL : String)
    (h1 : ∀ r, reasonText = some r → abandonedChars.isPrefixOf r.toList = true)
    (h2 : ∀ r, meetingReason = some r → abandonedChars.isPrefixOf r.toList = true) :
    (discoveryStatusHistory abandoned reasonText preraceURL [] = "Pending" ∨
      abandonedChars.isPrefixOf
        (discoveryStatusHistory abandoned reasonText preraceURL []).toList = true) ∧
    (discoveryStatusDailyResults abandoned = "Pending" ∨
      discoveryStatusDailyResults abandoned = "Abandoned") ∧
    (discoveryStatusDailyRaces meetingReason = "Pending" ∨
      abandonedChars.isPrefixOf (discoveryStatusDailyRaces meetingReason).toList = true) := by
  refine ⟨?_, ?_, ?_⟩
  · cases abandoned with
    | false => left; simp [discoveryStatusHistory]
    | true =>
      cases reasonText with
      | none => right; simp [discoveryStatusHistory]; decide
      | some r =>
        by_cases hr : r = ""
        · right; simp [discoveryStatusHistory, hr]; decide
        · right; simpa [discoveryStatusHistory, hr] using h1 r rfl
  · cases abandoned <;> simp [discoveryStatusDailyResults]
  · cases meetingReason with
    | none => left; rfl
    | some r =>
      by_cases hr : r = ""
      · left; simp [discoveryStatusDailyRaces, hr]
      · right; simpa [discoveryStatusDailyRaces, hr] using h2 r rfl

theorem C8_witness :
    ((∀ r, (some "Abandoned: high winds" : Option String) = some r →
        abandonedChars.isPrefixOf r.toList = true) ∧
      (∀ r, (some "Abandoned: snow" : Option String) = some r →
        abandonedChars.isPrefixOf r.toList = true)) ∧
    ((discoveryStatusHistory true (some "Abandoned: high winds") "u" [] = "Pending" ∨
        abandonedChars.isPrefixOf
          (discoveryStatusHistory true (some "Abandoned: high winds") "u" []).toList = true) ∧
      (discoveryStatusDailyResults true = "Pending" ∨
        discoveryStatusDailyResults true = "Abandoned") ∧
      (discoveryStatusDailyRaces (some "Abandoned: snow") = "Pending" ∨
        abandonedChars.isPrefixOf
          (discoveryStatusDailyRaces (some "Abandoned: snow")).toList = true)) := by
  have h1 : ∀ r, (some "Abandoned: high winds" : Option String) = some r →
      abandonedChars.isPrefixOf r.toList = true := by
    intro r h; cases h; decide
  have h2 : ∀ r, (some "Abandoned: snow" : Option String) = some r →
      abandonedChars.isPrefixOf r.toList = true := by
    intro r h; cases h; decide
  exact ⟨⟨h1, h2⟩,
    C8_discovery_status true (some "Abandoned: high winds") (some "Abandoned: snow") "u" h1 h2⟩

/-- C9 counterexample: a batch iteration that raises (for example the
uncaught TimeoutException of the Daily after-pass collector) skips the
driver.quit() statement, so the run ends with the browser session
opened but never closed. -/
theorem C9_counterexample :
    (mainRun c9BadBatch none).opened = true ∧
    (mainRun c9BadBatch none).closed = false := by decide

/-- C9 (amended): the empty-batch early return opens no session, and
on a batch whose iterations all complete normally the session is
closed (before the uploads run); only exception paths inside the batch
loop leak the session, as the counterexample shows. -/
theorem C9_session_close (batch : List StepResult) (uploadErr : Option String)
    (hclean : firstRaise batch = none) :
    (batch = [] → mainRun batch uploadErr =
      { opened := false, closed := false, err := none }) ∧
    (batch ≠ [] → (mainRun batch uploadErr).opened = true ∧
      (mainRun batch uploadErr).closed = true) := by
  constructor
  · intro h; subst h; rfl
  · intro h
    cases batch with
    | nil => exact absurd rfl h
    | cons a t => simp [mainRun, hclean]

theorem C9_witness :
    firstRaise c9OkBatch = none ∧
    (c9OkBatch ≠ [] ∧ ((mainRun c9OkBatch none).opened = true ∧
      (mainRun c9OkBatch none).closed = true)) :=
  ⟨rfl, by decide, (C9_session_close c9OkBatch none rfl).2 (by decide)⟩

/-- C10: whenever the each-way calculator returns a parsed result, the
returned fields satisfy Total_Returns = Win_Returns + Place_Returns
and Profit = Total_Returns - Staked, and a win-only bet has
Place_Returns = 0. -/
theorem C10_returns_identities (result runners : Option Int) (isHandicap : Bool)
    (winEw : Option ℚ) (stake : ℚ) (eachWay : Bool) (r : BetReturns)
    (h : calculate_returns_split result runners isHandicap winEw stake eachWay = some r) :
    r.Total_Returns = r.Win_Returns + r.Place_Returns ∧
    r.Profit = r.Total_Returns - r.Staked ∧
    (eachWay = false → r.Place_Returns = 0) := by
  cases result with
  | none => simp [calculate_returns_split] at h
  | some res =>
    cases runners with
    | none => simp [calculate_returns_split] at h
    | some run =>
      cases winEw with
      | none => simp [calculate_returns_split] at h
      | some ew =>
        simp only [calculate_returns_split] at h
        by_cases hew : eachWay = false
        · rw [if_pos hew] at h
          cases Option.some.inj h
          refine ⟨by simp, rfl, fun _ => rfl⟩
        · rw [if_neg hew] at h
          cases Option.some.inj h
          exact ⟨rfl, rfl, fun hc => absurd hc hew⟩

theorem C10_witness :
    calculate_returns_split (some 1) (some 10) false (some (9/2)) 1 true = some c10Result ∧
    (c10Result.Total_Returns = c10Result.Win_Returns + c10Result.Place_Returns ∧
      c10Result.Profit = c10Result.Total_Returns - c10Result.Staked ∧
      (true = false → c10Result.Place_Returns = 0)) := by
  have h : calculate_returns_split (some 1) (some 10) false (some (9/2)) 1 true =
      some c10Result := by
    simp [calculate_returns_split, getEwTerms, c10Result]
    norm_num
  exact ⟨h, C10_returns_identities (some 1) (some 10) false (some (9/2)) 1 true c10Result h⟩

/- ===== Substring and split lemmas for the Identity Resolver ===== -/

theorem slash_pref_false (q : List Char) (c : Char) (hc : c ≠ '/') (t : List Char) :
    ('/' :: q).isPrefixOf (c :: t) = false := by
  rw [List.isPrefixOf_cons₂]
  have : (('/' : Char) == c) = false := beq_eq_false_iff_ne.mpr (Ne.symm hc)
  rw [this, Bool.false_and]

theorem listContains_cons (pat : List Char) (c : Char) (t : List Char) :
    listContains pat (c :: t) = (pat.isPrefixOf (c :: t) || listContains pat t) := rfl

theorem slash_skip_contains (q : List Char) (c : Char) (hc : c ≠ '/') (t : List Char) :
    listContains ('/' :: q) (c :: t) = listContains ('/' :: q) t := by
  rw [listContains_cons, slash_pref_false q c hc t, Bool.false_or]

theorem blockSkip_contains (q x t : List Char) (hx : slashFree x) :
    listContains ('/' :: q) (x ++ t) = listContains ('/' :: q) t := by
  induction x with
  | nil => rfl
  | cons c x ih =>
    have hc : c ≠ '/' := fun h => hx (h ▸ List.mem_cons_self c x)
    have hx2 : slashFree x := fun h => hx (List.mem_cons_of_mem c h)
    rw [List.cons_append, slash_skip_contains q c hc, ih hx2]

theorem segNe_notPref (m : List Char) (hm : slashFree m) :
    ∀ (x u v : List Char), slashFree x → x ≠ m →
      (m ++ '/' :: u).isPrefixOf (x ++ '/' :: v) = false := by
  induction m with
  | nil =>
    intro x u v hx hne
    cases x with
    | nil => exact absurd rfl hne
    | cons c x2 =>
      rw [List.nil_append, List.cons_append]
      have hc : c ≠ '/' := fun h => hx (h ▸ List.mem_cons_self c x2)
      exact slash_pref_false u c hc _
  | cons a m2 ih =>
    intro x u v hx hne
    have ha : a ≠ '/' := fun h => hm (h ▸ List.mem_cons_self a m2)
    have hm2 : slashFree m2 := fun h => hm (List.mem_cons_of_mem a h)
    cases x with
    | nil =>
      rw [List.cons_append, List.nil_append, List.isPrefixOf_cons₂]
      have : (a == '/') = false := beq_eq_false_iff_ne.mpr ha
      rw [this, Bool.false_and]
    | cons c x2 =>
      rw [List.cons_append, List.cons_append, List.isPrefixOf_cons₂]
      by_cases hac : a = c
      · subst hac
        have hx2 : slashFree x2 := fun h => hx (List.mem_cons_of_mem a h)
        have hne2 : x2 ≠ m2 := fun h => hne (h ▸ rfl)
        rw [ih hm2 x2 u v hx2 hne2, Bool.and_false]
      · have : (a == c) = false := beq_eq_false_iff_ne.mpr hac
        rw [this, Bool.false_and]

theorem marker_notPref_slashFree (m : List Char) :
    ∀ (u x : List Char), slashFree x → (m ++ '/' :: u).isPrefixOf x = false := by
  induction m with
  | nil =>
    intro u x hx
    cases x with
    | nil => rfl
    | cons c x2 =>
      have hc : c ≠ '/' := fun h => hx (h ▸ List.mem_cons_self c x2)
      exact slash_pref_false u c hc x2
  | cons a m2 ih =>
    intro u x hx
    cases x with
    | nil => rfl
    | cons c x2 =>
      rw [List.cons_append, List.isPrefixOf_cons₂]
      have hx2 : slashFree x2 := fun h => hx (List.mem_cons_of_mem c h)
      rw [ih u x2 hx2, Bool.and_false]

theorem pref_self_append (p t : List Char) : p.isPrefixOf (p ++ t) = true := by
  simp [List.isPrefixOf_iff_prefix]

theorem contains_of_pref (pat s : List Char) (h : pat.isPrefixOf s = true) (hs : s ≠ []) :
    listContains pat s = true := by
  cases s with
  | nil => exact absurd rfl hs
  | cons c t => rw [listContains_cons, h, Bool.true_or]

theorem marker_shape (m w : List Char) :
    ('/' :: (m ++ ['/'])) ++ w = '/' :: (m ++ '/' :: w) := by
  simp

theorem contains_head_seg (m t : List Char) :
    listContains ('/' :: (m ++ ['/'])) ('/' :: (m ++ '/' :: t)) = true := by
  apply contains_of_pref
  · have h := pref_self_append ('/' :: (m ++ ['/'])) t
    rw [marker_shape] at h
    exact h
  · intro h; cases h

theorem seg_step_contains (m x w : List Char) (hm : slashFree m) (hx : slashFree x)
    (hxm : x ≠ m) :
    listContains ('/' :: (m ++ ['/'])) ('/' :: (x ++ '/' :: w)) =
      listContains ('/' :: (m ++ ['/'])) ('/' :: w) := by
  rw [listContains_cons]
  have h1 : ('/' :: (m ++ ['/'])).isPrefixOf ('/' :: (x ++ '/' :: w)) = false := by
    rw [List.isPrefixOf_cons₂]
    have hmp : (m ++ ['/']).isPrefixOf (x ++ '/' :: w) = false := by
      have : m ++ ['/'] = m ++ '/' :: ([] : List Char) := rfl
      rw [this]
      exact segNe_notPref m hm x [] w hx hxm
    rw [hmp, Bool.and_false]
  rw [h1, Bool.false_or, blockSkip_contains _ x _ hx]

theorem not_contains_marker (m : List Char) (hm : slashFree m) :
    ∀ segs : List (List Char), (∀ x ∈ segs, slashFree x) →
      (∀ x ∈ segs.dropLast, x ≠ m) →
      listContains ('/' :: (m ++ ['/'])) (mkLink segs) = false := by
  intro segs
  induction segs with
  | nil => intro _ _; rfl
  | cons x rest ih =>
    intro hsf hnm
    have hx : slashFree x := hsf x (List.mem_cons_self x rest)
    cases rest with
    | nil =>
      show listContains ('/' :: (m ++ ['/'])) ('/' :: (x ++ mkLink [])) = false
      rw [show mkLink ([] : List (List Char)) = [] from rfl, List.append_nil,
        listContains_cons]
      have h1 : ('/' :: (m ++ ['/'])).isPrefixOf ('/' :: x) = false := by
        rw [List.isPrefixOf_cons₂]
        have : (m ++ ['/']).isPrefixOf x = false := by
          have hsh : m ++ ['/'] = m ++ '/' :: ([] : List Char) := rfl
          rw [hsh]
          exact marker_notPref_slashFree m [] x hx
        rw [this, Bool.and_false]
      rw [h1, Bool.false_or]
      have : listContains ('/' :: (m ++ ['/'])) (x ++ []) =
          listContains ('/' :: (m ++ ['/'])) [] := blockSkip_contains _ x [] hx
      rw [List.append_nil] at this
      rw [this]
      rfl
    | cons y rest2 =>
      have hxm : x ≠ m := by
        apply hnm x
        rw [List.dropLast_cons₂]
        exact List.mem_cons_self x _
      have hrec : listContains ('/' :: (m ++ ['/'])) (mkLink (y :: rest2)) = false := by
        apply ih
        · intro z hz; exact hsf z (List.mem_cons_of_mem x hz)
        · intro z hz
          apply hnm z
          rw [List.dropLast_cons₂]
          exact List.mem_cons_of_mem x hz
      show listContains ('/' :: (m ++ ['/'])) ('/' :: (x ++ mkLink (y :: rest2))) = false
      rw [show mkLink (y :: rest2) = '/' :: (y ++ mkLink rest2) from rfl]
      rw [seg_step_contains m x _ hm hx hxm]
      rw [← show mkLink (y :: rest2) = '/' :: (y ++ mkLink rest2) from rfl]
      exact hrec

theorem contains_marker (m : List Char) :
    ∀ segs : List (List Char), (∀ x ∈ segs, slashFree x) → slashFree m →
      m ∈ segs.dropLast →
      listContains ('/' :: (m ++ ['/'])) (mkLink segs) = true := by
  intro segs
  induction segs with
  | nil => intro _ _ hmem; simp at hmem
  | cons x rest ih =>
    intro hsf hm hmem
    cases rest with
    | nil => simp at hmem
    | cons y rest2 =>
      rw [List.dropLast_cons₂] at hmem
      by_cases hx : x = m
      · subst hx
        show listContains ('/' :: (x ++ ['/'])) ('/' :: (x ++ mkLink (y :: rest2))) = true
        rw [show mkLink (y :: rest2) = '/' :: (y ++ mkLink rest2) from rfl]
        exact contains_head_seg x _
      · have hmem2 : m ∈ (y :: rest2).dropLast := by
          rcases List.mem_cons.mp hmem with h | h
          · exact absurd h.symm hx
          · exact h
        have hxf : slashFree x := hsf x (List.mem_cons_self x _)
        have hxm : x ≠ m := hx
        show listContains ('/' :: (m ++ ['/'])) ('/' :: (x ++ mkLink (y :: rest2))) = true
        rw [show mkLink (y :: rest2) = '/' :: (y ++ mkLink rest2) from rfl]
        rw [seg_step_contains m x _ hm hxf hxm]
        rw [← show mkLink (y :: rest2) = '/' :: (y ++ mkLink rest2) from rfl]
        exact ih (fun z hz => hsf z (List.mem_cons_of_mem x hz)) hm hmem2

theorem pySplit_ne_nil (sep : Char) (s : List Char) : pySplit sep s ≠ [] := by
  induction s with
  | nil => simp [pySplit]
  | cons c t ih =>
    simp only [pySplit]
    cases h : pySplit sep t with
    | nil => exact absurd h ih
    | cons h0 r => by_cases hc : c = sep <;> simp [hc]

theorem pySplit_slashFree (x : List Char) (hx : slashFree x) : pySplit '/' x = [x] := by
  induction x with
  | nil => rfl
  | cons c x2 ih =>
    have hc : c ≠ '/' := fun h => hx (h ▸ List.mem_cons_self c x2)
    have hx2 : slashFree x2 := fun h => hx (List.mem_cons_of_mem c h)
    simp only [pySplit, ih hx2]
    simp [hc]

theorem pySplit_append (x t : List Char) (hx : slashFree x) :
    pySplit '/' (x ++ '/' :: t) = x :: pySplit '/' t := by
  induction x with
  | nil =>
    simp only [List.nil_append, pySplit]
    cases h : pySplit '/' t with
    | nil => exact absurd h (pySplit_ne_nil '/' t)
    | cons h0 r => simp [← h]
  | cons c x2 ih =>
    have hc : c ≠ '/' := fun h => hx (h ▸ List.mem_cons_self c x2)
    have hx2 : slashFree x2 := fun h => hx (List.mem_cons_of_mem c h)
    rw [List.cons_append]
    simp only [pySplit]
    rw [ih hx2]
    simp [hc]

theorem dropWhile_of_head_ne (c : Char) (w : List Char) (hc : c ≠ '/') :
    (c :: w).dropWhile (· == '/') = c :: w := by
  rw [List.dropWhile_cons_of_neg]
  simp [hc]

theorem mkLink_rev_head : ∀ segs : List (List Char), segs ≠ [] →
    (∀ y ∈ segs, y ≠ [] ∧ slashFree y) →
    ∃ c w, (mkLink segs).reverse = c :: w ∧ c ≠ '/' := by
  intro segs
  induction segs with
  | nil => intro h _; exact absurd rfl h
  | cons x rest ih =>
    intro _ hok
    have hx := hok x (List.mem_cons_self x rest)
    cases rest with
    | nil =>
      have hxr : x.reverse ≠ [] := by
        intro h
        exact hx.1 (by simpa using congrArg List.reverse h)
      obtain ⟨c, w, hr⟩ : ∃ c w, x.reverse = c :: w := by
        cases hxx : x.reverse with
        | nil => exact absurd hxx hxr
        | cons c w => exact ⟨c, w, rfl⟩
      have hcx : c ∈ x := by
        rw [← List.mem_reverse, hr]
        exact List.mem_cons_self c w
      refine ⟨c, w ++ ['/'], ?_, fun h => hx.2 (h ▸ hcx)⟩
      show ('/' :: (x ++ mkLink [])).reverse = c :: (w ++ ['/'])
      rw [show mkLink ([] : List (List Char)) = [] from rfl, List.append_nil,
        List.reverse_cons, hr]
      rfl
    | cons y rest2 =>
      obtain ⟨c, w, hcw, hc⟩ := ih (by simp)
        (fun z hz => hok z (List.mem_cons_of_mem x hz))
      refine ⟨c, w ++ (x.reverse ++ ['/']), ?_, hc⟩
      show ('/' :: (x ++ mkLink (y :: rest2))).reverse = _
      rw [List.reverse_cons, List.reverse_append, hcw]
      simp

theorem pyStrip_mkLink : ∀ (x : List Char) (rest : List (List Char)),
    (∀ y ∈ x :: rest, y ≠ [] ∧ slashFree y) →
    pyStrip '/' (mkLink (x :: rest)) = x ++ mkLink rest := by
  intro x rest hok
  have hx := hok x (List.mem_cons_self x rest)
  unfold pyStrip
  have hlead : (mkLink (x :: rest)).dropWhile (· == '/') = x ++ mkLink rest := by
    show ('/' :: (x ++ mkLink rest)).dropWhile (· == '/') = x ++ mkLink rest
    rw [List.dropWhile_cons_of_pos (by simp)]
    cases hxc : x with
    | nil => exact absurd hxc hx.1
    | cons c x2 =>
      have hc : c ≠ '/' := fun h => hx.2 (by rw [hxc]; exact h ▸ List.mem_cons_self c x2)
      rw [List.cons_append]
      exact dropWhile_of_head_ne c _ hc
  rw [hlead]
  have hrev : ∃ c w, (x ++ mkLink rest).reverse = c :: w ∧ c ≠ '/' := by
    cases rest with
    | nil =>
      rw [show mkLink ([] : List (List Char)) = [] from rfl, List.append_nil]
      have hxr : x.reverse ≠ [] := by
        intro h
        exact hx.1 (by simpa using congrArg List.reverse h)
      obtain ⟨c, w, hr⟩ : ∃ c w, x.reverse = c :: w := by
        cases hxx : x.reverse with
        | nil => exact absurd hxx hxr
        | cons c w => exact ⟨c, w, rfl⟩
      have hcx : c ∈ x := by
        rw [← List.mem_reverse, hr]
        exact List.mem_cons_self c w
      exact ⟨c, w, hr, fun h => hx.2 (h ▸ hcx)⟩
    | cons y rest2 =>
      obtain ⟨c, w, hcw, hc⟩ := mkLink_rev_head (y :: rest2) (by simp)
        (fun z hz => hok z (List.mem_cons_of_mem x hz))
      refine ⟨c, w ++ x.reverse, ?_, hc⟩
      rw [List.reverse_append, hcw]
      simp
  obtain ⟨c, w, hcw, hc⟩ := hrev
  rw [hcw, dropWhile_of_head_ne c w hc, ← hcw, List.reverse_reverse]

theorem pySplit_body : ∀ (rest : List (List Char)) (x : List Char),
    (∀ y ∈ x :: rest, y ≠ [] ∧ slashFree y) →
    pySplit '/' (x ++ mkLink rest) = x :: rest := by
  intro rest
  induction rest with
  | nil =>
    intro x hok
    rw [show mkLink ([] : List (List Char)) = [] from rfl, List.append_nil]
    exact pySplit_slashFree x (hok x (List.mem_cons_self x [])).2
  | cons y rest2 ih =>
    intro x hok
    rw [show mkLink (y :: rest2) = '/' :: (y ++ mkLink rest2) from rfl]
    rw [pySplit_append x _ (hok x (List.mem_cons_self x _)).2]
    rw [ih y (fun z hz => hok z (List.mem_cons_of_mem x hz))]

theorem split_strip_mkLink (segs : List (List Char)) (hne : segs ≠ [])
    (hok : ∀ y ∈ segs, y ≠ [] ∧ slashFree y) :
    pySplit '/' (pyStrip '/' (mkLink segs)) = segs := by
  cases segs with
  | nil => exact absurd rfl hne
  | cons x rest =>
    rw [pyStrip_mkLink x rest hok]
    exact pySplit_body rest x hok

theorem pyReplaceAux_nil (pat rep : List Char) (n : Nat) :
    pyReplaceAux pat rep n [] = [] := by
  cases n <;> rfl

theorem pyReplaceAux_fuel (pat rep : List Char) :
    ∀ (n m : Nat) (s : List Char), s.length ≤ n → s.length ≤ m →
      pyReplaceAux pat rep n s = pyReplaceAux pat rep m s := by
  intro n
  induction n with
  | zero =>
    intro m s hs _
    have : s = [] := List.eq_nil_of_length_eq_zero (Nat.le_zero.mp hs)
    subst this
    rw [pyReplaceAux_nil, pyReplaceAux_nil]
  | succ n ih =>
    intro m s hs hsm
    cases s with
    | nil => rw [pyReplaceAux_nil, pyReplaceAux_nil]
    | cons c t =>
      cases m with
      | zero => simp at hsm
      | succ m2 =>
        have htn : t.length ≤ n := Nat.le_of_succ_le_succ hs
        have htm : t.length ≤ m2 := Nat.le_of_succ_le_succ hsm
        show pyReplaceAux pat rep (n + 1) (c :: t) = pyReplaceAux pat rep (m2 + 1) (c :: t)
        simp only [pyReplaceAux]
        by_cases hb : (!pat.isEmpty && pat.isPrefixOf (c :: t)) = true
        · rw [if_pos hb, if_pos hb]
          have hd : (List.drop (pat.length - 1) t).length ≤ t.length := by
            rw [List.length_drop]
            exact Nat.sub_le _ _
          rw [ih m2 _ (Nat.le_trans hd htn) (Nat.le_trans hd htm)]
        · rw [if_neg hb, if_neg hb]
          rw [ih m2 t htn htm]

theorem pyReplace_skip_char (pat rep : List Char) (c : Char) (t : List Char)
    (h : pat.isPrefixOf (c :: t) = false) :
    pyReplace pat rep (c :: t) = c :: pyReplace pat rep t := by
  show pyReplaceAux pat rep (t.length + 1) (c :: t) = c :: pyReplaceAux pat rep t.length t
  simp only [pyReplaceAux]
  rw [if_neg (by simp [h])]

theorem pyReplace_match (pat rep t : List Char) (hne : pat ≠ []) :
    pyReplace pat rep (pat ++ t) = rep ++ pyReplace pat rep t := by
  cases pat with
  | nil => exact absurd rfl hne
  | cons p0 p2 =>
    show pyReplaceAux (p0 :: p2) rep ((p0 :: p2) ++ t).length (p0 :: (p2 ++ t)) =
      rep ++ pyReplaceAux (p0 :: p2) rep t.length t
    have hlen : ((p0 :: p2) ++ t).length = (p2.length + t.length) + 1 := by
      simp [Nat.add_comm, Nat.add_assoc, Nat.add_left_comm]
    rw [hlen]
    simp only [pyReplaceAux]
    rw [if_pos]
    · have hd : List.drop ((p0 :: p2).length - 1) (p2 ++ t) = t := by
        have : (p0 :: p2).length - 1 = p2.length := by simp
        rw [this]
        exact List.drop_left p2 t
      rw [hd]
      have := pyReplaceAux_fuel (p0 :: p2) rep (p2.length + t.length) t.length t
        (Nat.le_add_left _ _) (Nat.le_refl _)
      rw [this]
    · simp only [Bool.and_eq_true]
      constructor
      · simp
      · have := pref_self_append (p0 :: p2) t
        simp at this
        simp [this]

theorem pyReplace_block (q rep x t : List Char) (hx : slashFree x) :
    pyReplace ('/' :: q) rep (x ++ t) = x ++ pyReplace ('/' :: q) rep t := by
  induction x with
  | nil => rfl
  | cons c x2 ih =>
    have hc : c ≠ '/' := fun h => hx (h ▸ List.mem_cons_self c x2)
    have hx2 : slashFree x2 := fun h => hx (List.mem_cons_of_mem c h)
    rw [List.cons_append, pyReplace_skip_char _ rep c _ (slash_pref_false q c hc _),
      ih hx2, List.cons_append]

theorem pyReplace_no_occurrence (pat rep : List Char) :
    ∀ s : List Char, listContains pat s = false → pyReplace pat rep s = s := by
  intro s
  induction s with
  | nil => intro _; rfl
  | cons c t ih =>
    intro h
    rw [listContains_cons, Bool.or_eq_false_iff] at h
    rw [pyReplace_skip_char pat rep c t h.1, ih h.2]

theorem pyReplace_second_seg (m m2 x z : List Char) (rest2 : List (List Char))
    (hm : slashFree m) (hx : slashFree x) (hxm : x ≠ m) (hz : slashFree z)
    (hok : ∀ y ∈ z :: rest2, slashFree y)
    (hni : ∀ y ∈ rest2.dropLast, y ≠ m) :
    pyReplace ('/' :: (m ++ ['/'])) ('/' :: (m2 ++ ['/'])) (mkLink (x :: m :: z :: rest2)) =
      mkLink (x :: m2 :: z :: rest2) := by
  have hT : mkLink (m :: z :: rest2) =
      ('/' :: (m ++ ['/'])) ++ (z ++ mkLink rest2) := by
    rw [marker_shape]
    rfl
  have hhead : ('/' :: (m ++ ['/'])).isPrefixOf
      ('/' :: (x ++ mkLink (m :: z :: rest2))) = false := by
    rw [List.isPrefixOf_cons₂]
    have hshape : x ++ mkLink (m :: z :: rest2) =
        x ++ '/' :: (m ++ mkLink (z :: rest2)) := rfl
    have : (m ++ ['/']).isPrefixOf (x ++ mkLink (m :: z :: rest2)) = false := by
      rw [hshape]
      have hms : m ++ ['/'] = m ++ '/' :: ([] : List Char) := rfl
      rw [hms]
      have hsm : x ++ '/' :: (m ++ mkLink (z :: rest2)) =
          x ++ '/' :: (m ++ mkLink (z :: rest2)) := rfl
      exact segNe_notPref m hm x [] (m ++ mkLink (z :: rest2)) hx hxm
    rw [this, Bool.and_false]
  have hnocc : listContains ('/' :: (m ++ ['/'])) (z ++ mkLink rest2) = false := by
    rw [blockSkip_contains _ z _ hz]
    exact not_contains_marker m hm rest2
      (fun y hy => hok y (List.mem_cons_of_mem z hy)) hni
  show pyReplace ('/' :: (m ++ ['/'])) ('/' :: (m2 ++ ['/']))
      ('/' :: (x ++ mkLink (m :: z :: rest2))) = mkLink (x :: m2 :: z :: rest2)
  rw [pyReplace_skip_char _ _ '/' _ hhead]
  rw [pyReplace_block (m ++ ['/']) _ x _ hx]
  rw [hT]
  rw [pyReplace_match _ _ _ (by simp)]
  rw [pyReplace_no_occurrence _ _ _ hnocc]
  show '/' :: (x ++ (('/' :: (m2 ++ ['/'])) ++ (z ++ mkLink rest2))) = _
  rw [marker_shape]
  rfl

theorem racecardsMarker_eq : racecardsMarker = '/' :: (racecardsSeg ++ ['/']) := by decide

theorem racecardMarker_eq : racecardMarker = '/' :: (racecardSeg ++ ['/']) := by decide

theorem resultsMarker_eq : resultsMarker = '/' :: (resultsSeg ++ ['/']) := by decide

theorem rebuild_eq (D L I N : List Char) :
    racingRacecardsStub ++ D ++ ('/' :: L) ++ racecardStub ++ I ++ ('/' :: N) =
      preFullLink D L I N := by
  have h1 : racingRacecardsStub = '/' :: (racingSeg ++ '/' :: (racecardsSeg ++ ['/'])) := by
    decide
  have h2 : racecardStub = '/' :: (racecardSeg ++ ['/']) := by decide
  rw [h1, h2]
  show _ = mkLink [racingSeg, racecardsSeg, D, L, racecardSeg, I, N]
  simp only [mkLink, List.append_nil]
  simp [List.append_assoc]

theorem segsOk_preShort (D L I N : List Char) (hD : SegOkMid D) (hL : SegOkMid L)
    (hI : SegOkMid I) (hN : SegOkLast N) :
    ∀ y ∈ [racingSeg, racecardsSeg, D, L, I, N], y ≠ [] ∧ slashFree y := by
  intro y hy
  simp only [List.mem_cons, List.mem_singleton, List.not_mem_nil, or_false] at hy
  rcases hy with rfl | rfl | rfl | rfl | rfl | rfl
  · exact ⟨by decide, by decide⟩
  · exact ⟨by decide, by decide⟩
  · exact ⟨hD.1, hD.2.1⟩
  · exact ⟨hL.1, hL.2.1⟩
  · exact ⟨hI.1, hI.2.1⟩
  · exact ⟨hN.1, hN.2⟩

theorem repairShort_preShort (D L I N : List Char) (hD : SegOkMid D) (hL : SegOkMid L)
    (hI : SegOkMid I) (hN : SegOkLast N) :
    repairShort (preShortLink D L I N) = preFullLink D L I N := by
  have hparts : pySplit '/' (pyStrip '/' (preShortLink D L I N)) =
      [racingSeg, racecardsSeg, D, L, I, N] := by
    show pySplit '/' (pyStrip '/' (mkLink [racingSeg, racecardsSeg, D, L, I, N])) = _
    exact split_strip_mkLink _ (by simp) (segsOk_preShort D L I N hD hL hI hN)
  unfold repairShort
  simp only [hparts]
  rw [if_pos (by simp)]
  simp only [List.getD]
  show racingRacecardsStub ++ D ++ ('/' :: L) ++ racecardStub ++ I ++ ('/' :: N) = _
  exact rebuild_eq D L I N

theorem resolve_preFull (D L I N : List Char) (hD : SegOkMid D) (hL : SegOkMid L)
    (hI : SegOkMid I) (hN : SegOkLast N) :
    (resolveLink (preFullLink D L I N)).map URLPair.prerace =
      some (canonicalPrerace D L I N) := by
  have hsf : ∀ x ∈ [racingSeg, racecardsSeg, D, L, racecardSeg, I, N], slashFree x := by
    intro x hx
    simp only [List.mem_cons, List.mem_singleton, List.not_mem_nil, or_false] at hx
    rcases hx with rfl | rfl | rfl | rfl | rfl | rfl | rfl
    · decide
    · decide
    · exact hD.2.1
    · exact hL.2.1
    · decide
    · exact hI.2.1
    · exact hN.2
  have h1 : listContains racecardsMarker (preFullLink D L I N) = true := by
    rw [racecardsMarker_eq]
    apply contains_marker racecardsSeg _ hsf (by decide)
    show racecardsSeg ∈ [racingSeg, racecardsSeg, D, L, racecardSeg, I]
    exact List.mem_cons_of_mem _ (List.mem_cons_self _ _)
  have h2 : listContains racecardMarker (preFullLink D L I N) = true := by
    rw [racecardMarker_eq]
    apply contains_marker racecardSeg _ hsf (by decide)
    show racecardSeg ∈ [racingSeg, racecardsSeg, D, L, racecardSeg, I]
    simp
  simp only [resolveLink, h1, h2, if_true, Option.map_some]
  rfl

theorem resolve_preShort (D L I N : List Char) (hD : SegOkMid D) (hL : SegOkMid L)
    (hI : SegOkMid I) (hN : SegOkLast N) :
    (resolveLink (preShortLink D L I N)).map URLPair.prerace =
      some (canonicalPrerace D L I N) := by
  have hsf : ∀ x ∈ [racingSeg, racecardsSeg, D, L, I, N], slashFree x :=
    fun y hy => (segsOk_preShort D L I N hD hL hI hN y hy).2
  have h1 : listContains racecardsMarker (preShortLink D L I N) = true := by
    rw [racecardsMarker_eq]
    apply contains_marker racecardsSeg _ hsf (by decide)
    show racecardsSeg ∈ [racingSeg, racecardsSeg, D, L, I]
    exact List.mem_cons_of_mem _ (List.mem_cons_self _ _)
  have h2 : listContains racecardMarker (preShortLink D L I N) = false := by
    rw [racecardMarker_eq]
    apply not_contains_marker racecardSeg (by decide) _ hsf
    intro x hx
    show x ≠ racecardSeg
    revert hx
    show x ∈ [racingSeg, racecardsSeg, D, L, I] → x ≠ racecardSeg
    intro hx
    simp only [List.mem_cons, List.mem_singleton, List.not_mem_nil, or_false] at hx
    rcases hx with rfl | rfl | rfl | rfl | rfl
    · decide
    · decide
    · exact hD.2.2.1
    · exact hL.2.2.1
    · exact hI.2.2.1
  have hrep := repairShort_preShort D L I N hD hL hI hN
  simp only [resolveLink, h1, h2, if_true, Bool.false_eq_true, if_false, hrep,
    Option.map_some]
  rfl

theorem resolve_postFull (D L I N : List Char) (hD : SegOkMid D) (hL : SegOkMid L)
    (hI : SegOkMid I) (hN : SegOkLast N) :
    (resolveLink (postFullLink D L I N)).map URLPair.prerace =
      some (canonicalPrerace D L I N) := by
  have hsf : ∀ x ∈ [racingSeg, resultsSeg, D, L, racecardSeg, I, N], slashFree x := by
    intro x hx
    simp only [List.mem_cons, List.mem_singleton, List.not_mem_nil, or_false] at hx
    rcases hx with rfl | rfl | rfl | rfl | rfl | rfl | rfl
    · decide
    · decide
    · exact hD.2.1
    · exact hL.2.1
    · decide
    · exact hI.2.1
    · exact hN.2
  have h0 : listContains racecardsMarker (postFullLink D L I N) = false := by
    rw [racecardsMarker_eq]
    apply not_contains_marker racecardsSeg (by decide) _ hsf
    intro x hx
    show x ≠ racecardsSeg
    revert hx
    show x ∈ [racingSeg, resultsSeg, D, L, racecardSeg, I] → x ≠ racecardsSeg
    intro hx
    simp only [List.mem_cons, List.mem_singleton, List.not_mem_nil, or_false] at hx
    rcases hx with rfl | rfl | rfl | rfl | rfl | rfl
    · decide
    · decide
    · exact hD.2.2.2.1
    · exact hL.2.2.2.1
    · decide
    · exact hI.2.2.2.1
  have h1 : listContains resultsMarker (postFullLink D L I N) = true := by
    rw [resultsMarker_eq]
    apply contains_marker resultsSeg _ hsf (by decide)
    show resultsSeg ∈ [racingSeg, resultsSeg, D, L, racecardSeg, I]
    exact List.mem_cons_of_mem _ (List.mem_cons_self _ _)
  have hrep : pyReplace resultsMarker racecardsMarker (postFullLink D L I N) =
      preFullLink D L I N := by
    rw [resultsMarker_eq, racecardsMarker_eq]
    show pyReplace _ _ (mkLink (racingSeg :: resultsSeg :: D :: [L, racecardSeg, I, N])) =
      mkLink (racingSeg :: racecardsSeg :: D :: [L, racecardSeg, I, N])
    apply pyReplace_second_seg resultsSeg racecardsSeg racingSeg D [L, racecardSeg, I, N]
      (by decide) (by decide) (by decide) hD.2.1
    · intro y hy
      simp only [List.mem_cons, List.mem_singleton, List.not_mem_nil, or_false] at hy
      rcases hy with rfl | rfl | rfl | rfl | rfl
      · exact hD.2.1
      · exact hL.2.1
      · decide
      · exact hI.2.1
      · exact hN.2
    · intro y hy
      show y ≠ resultsSeg
      revert hy
      show y ∈ [L, racecardSeg, I] → y ≠ resultsSeg
      intro hy
      simp only [List.mem_cons, List.mem_singleton, List.not_mem_nil, or_false] at hy
      rcases hy with rfl | rfl | rfl
      · exact hL.2.2.2.2
      · decide
      · exact hI.2.2.2.2
  have h2 : listContains racecardMarker (preFullLink D L I N) = true := by
    rw [racecardMarker_eq]
    apply contains_marker racecardSeg _ (by
      intro x hx
      simp only [List.mem_cons, List.mem_singleton, List.not_mem_nil, or_false] at hx
      rcases hx with rfl | rfl | rfl | rfl | rfl | rfl | rfl
      · decide
      · decide
      · exact hD.2.1
      · exact hL.2.1
      · decide
      · exact hI.2.1
      · exact hN.2) (by decide)
    show racecardSeg ∈ [racingSeg, racecardsSeg, D, L, racecardSeg, I]
    simp
  simp only [resolveLink, h0, h1, Bool.false_eq_true, if_false, if_true, hrep, h2,
    Option.map_some]
  rfl

theorem resolve_postShort (D L I N : List Char) (hD : SegOkMid D) (hL : SegOkMid L)
    (hI : SegOkMid I) (hN : SegOkLast N) :
    (resolveLink (postShortLink D L I N)).map URLPair.prerace =
      some (canonicalPrerace D L I N) := by
  have hsf : ∀ x ∈ [racingSeg, resultsSeg, D, L, I, N], slashFree x := by
    intro x hx
    simp only [List.mem_cons, List.mem_singleton, List.not_mem_nil, or_false] at hx
    rcases hx with rfl | rfl | rfl | rfl | rfl | rfl
    · decide
    · decide
    · exact hD.2.1
    · exact hL.2.1
    · exact hI.2.1
    · exact hN.2
  have h0 : listContains racecardsMarker (postShortLink D L I N) = false := by
    rw [racecardsMarker_eq]
    apply not_contains_marker racecardsSeg (by decide) _ hsf
    intro x hx
    show x ≠ racecardsSeg
    revert hx
    show x ∈ [racingSeg, resultsSeg, D, L, I] → x ≠ racecardsSeg
    intro hx
    simp only [List.mem_cons, List.mem_singleton, List.not_mem_nil, or_false] at hx
    rcases hx with rfl | rfl | rfl | rfl | rfl
    · decide
    · decide
    · exact hD.2.2.2.1
    · exact hL.2.2.2.1
    · exact hI.2.2.2.1
  have h1 : listContains resultsMarker (postShortLink D L I N) = true := by
    rw [resultsMarker_eq]
    apply contains_marker resultsSeg _ hsf (by decide)
    show resultsSeg ∈ [racingSeg, resultsSeg, D, L, I]
    exact List.mem_cons_of_mem _ (List.mem_cons_self _ _)
  have hrep : pyReplace resultsMarker racecardsMarker (postShortLink D L I N) =
      preShortLink D L I N := by
    rw [resultsMarker_eq, racecardsMarker_eq]
    show pyReplace _ _ (mkLink (racingSeg :: resultsSeg :: D :: [L, I, N])) =
      mkLink (racingSeg :: racecardsSeg :: D :: [L, I, N])
    apply pyReplace_second_seg resultsSeg racecardsSeg racingSeg D [L, I, N]
      (by decide) (by decide) (by decide) hD.2.1
    · intro y hy
      simp only [List.mem_cons, List.mem_singleton, List.not_mem_nil, or_false] at hy
      rcases hy with rfl | rfl | rfl | rfl
      · exact hD.2.1
      · exact hL.2.1
      · exact hI.2.1
      · exact hN.2
    · intro y hy
      show y ≠ resultsSeg
      revert hy
      show y ∈ [L, I] → y ≠ resultsSeg
      intro hy
      simp only [List.mem_cons, List.mem_singleton, List.not_mem_nil, or_false] at hy
      rcases hy with rfl | rfl
      · exact hL.2.2.2.2
      · exact hI.2.2.2.2
  have h2 : listContains racecardMarker (preShortLink D L I N) = false := by
    rw [racecardMarker_eq]
    apply not_contains_marker racecardSeg (by decide) _
      (fun y hy => (segsOk_preShort D L I N hD hL hI hN y hy).2)
    intro x hx
    show x ≠ racecardSeg
    revert hx
    show x ∈ [racingSeg, racecardsSeg, D, L, I] → x ≠ racecardSeg
    intro hx
    simp only [List.mem_cons, List.mem_singleton, List.not_mem_nil, or_false] at hx
    rcases hx with rfl | rfl | rfl | rfl | rfl
    · decide
    · decide
    · exact hD.2.2.1
    · exact hL.2.2.1
    · exact hI.2.2.1
  have hrepair := repairShort_preShort D L I N hD hL hI hN
  simp only [resolveLink, h0, h1, Bool.false_eq_true, if_false, if_true, hrep, h2,
    hrepair, Option.map_some]
  rfl

/-- C3: a pre-collection link (in full or shortened form) and a
post-collection link (in full or shortened form) for the same event
(same date, location, event-id and race-name segments) all resolve to
the same prerace_URL, the canonical Event Identity of the event. -/
theorem C3_cross_link_equivalence (D L I N : List Char) (hD : SegOkMid D)
    (hL : SegOkMid L) (hI : SegOkMid I) (hN : SegOkLast N) :
    (resolveLink (preFullLink D L I N)).map URLPair.prerace =
        some (canonicalPrerace D L I N) ∧
      (resolveLink (preShortLink D L I N)).map URLPair.prerace =
        some (canonicalPrerace D L I N) ∧
      (resolveLink (postFullLink D L I N)).map URLPair.prerace =
        some (canonicalPrerace D L I N) ∧
      (resolveLink (postShortLink D L I N)).map URLPair.prerace =
        some (canonicalPrerace D L I N) :=
  ⟨resolve_preFull D L I N hD hL hI hN, resolve_preShort D L I N hD hL hI hN,
   resolve_postFull D L I N hD hL hI hN, resolve_postShort D L I N hD hL hI hN⟩

theorem C3_witness :
    (SegOkMid segD ∧ SegOkMid segL ∧ SegOkMid segI ∧ SegOkLast segN) ∧
    ((resolveLink (preFullLink segD segL segI segN)).map URLPair.prerace =
        some (canonicalPrerace segD segL segI segN) ∧
      (resolveLink (preShortLink segD segL segI segN)).map URLPair.prerace =
        some (canonicalPrerace segD segL segI segN) ∧
      (resolveLink (postFullLink segD segL segI segN)).map URLPair.prerace =
        some (canonicalPrerace segD segL segI segN) ∧
      (resolveLink (postShortLink segD segL segI segN)).map URLPair.prerace =
        some (canonicalPrerace segD segL segI segN)) :=
  ⟨⟨by decide, by decide, by decide, by decide⟩,
   C3_cross_link_equivalence segD segL segI segN (by decide) (by decide) (by decide)
     (by decide)⟩
